import Mathlib

/-!
Verification of the 5-a-side football team manager.

Shallow embedding of `src/player.py`, `src/teams.py` and `src/db.py`:
pure functions become Lean functions over `ℚ` (Python floats), the
mutable `TeamCreator` and `DB` objects become explicit state records,
and Python exceptions become explicit error results.  The `while` loop
of `_adjust_teams_for_fairness` is embedded with explicit fuel; the
termination theorem shows the fuel bound `swap_heap.length` suffices.
-/

namespace FiveASide

/-! ## player.py -/

/-- The six named attribute scores of `Attributes` (player.py).
Each `PlayerAttribute` holds one numeric `score`; non-numeric scores are
rejected by `__post_init__`, which the `ℚ` type models. -/
structure Attributes where
  shooting : ℚ
  dribbling : ℚ
  passing : ℚ
  tackling : ℚ
  fitness : ℚ
  goalkeeping : ℚ
deriving DecidableEq

instance : Inhabited Attributes := ⟨⟨0, 0, 0, 0, 0, 0⟩⟩

/-- `NUM_ATTRIBUTES` (player.py). -/
def NUM_ATTRIBUTES : ℚ := 6

/-- `Player._get_base_rating`: mean of the six attribute scores. -/
def Attributes.base_rating (a : Attributes) : ℚ :=
  (a.shooting + a.dribbling + a.passing + a.tackling + a.fitness +
    a.goalkeeping) / NUM_ATTRIBUTES

/-- `Player` (player.py): dataclass fields `name`, `attributes`, `form`,
`mu` (`min_sigma` is the constant `1.0`; `sigma` is recomputed from
`form` on every call and never feeds into a rating, so it is derived,
not stored). -/
structure Player where
  name : String
  attributes : Attributes
  form : ℤ
  mu : ℚ
deriving DecidableEq

instance : Inhabited Player := ⟨⟨"", default, 0, 0⟩⟩

/-- `Player.__post_init__`: clamp `form` into `[0, 10]` and set
`mu` to the base rating. -/
def mkPlayer (name : String) (attributes : Attributes) (form : ℤ) : Player :=
  { name := name
    attributes := attributes
    form := max 0 (min form 10)
    mu := attributes.base_rating }

/-- `Player.get_overall_rating`: `trueskill_rating.mu * (1 + 0.05 * form)`;
`_calculate_trueskill` stores `self.mu` unchanged into the rating. -/
def Player.get_overall_rating (p : Player) : ℚ :=
  p.mu * (1 + (1 / 20) * (p.form : ℚ))

/-- `Player.update_trueskill`: step `form` by ±1 clamped to `[0, 10]`,
then rescale and clamp `mu` into `[1, 10]`. -/
def Player.update_trueskill (p : Player) (won : Bool) : Player :=
  let form' : ℤ := if won then min (p.form + 1) 10 else max (p.form - 1) 0
  let adjustment_factor : ℚ := if won then 1 + (1 / 10) * (form' : ℚ) else 9 / 10
  { p with form := form', mu := min (max (p.mu * adjustment_factor) 1) 10 }

/-- Modelled from the spec: `Player.update_form` (FormTracker, spec §4.2)
is called by `DB.record_match_result` and by the tests but is not defined
in `src/player.py`; per the spec it increments form by 1 on a win and
decrements it by 1 on a loss, clamped to `[0, 10]` — exactly the form
update performed by `Player.update_trueskill`. -/
def Player.update_form (p : Player) (won : Bool) : Player :=
  { p with form := if won then min (p.form + 1) 10 else max (p.form - 1) 0 }

/-! ## teams.py -/

/-- `LARGE_TEAM_BOOST = 1.2` (teams.py). -/
def LARGE_TEAM_BOOST : ℚ := 6 / 5

/-- `Team` (teams.py): players plus a bonus multiplier (default 1.0). -/
structure Team where
  players : List Player
  bonus : ℚ := 1
deriving DecidableEq

instance : Inhabited Team := ⟨⟨[], 1⟩⟩

/-- `Team.get_overall_rating`: sum of member ratings times the bonus. -/
def Team.get_overall_rating (t : Team) : ℚ :=
  (t.players.map Player.get_overall_rating).sum * t.bonus

/-- Comparison used by `sorted(..., key=rating, reverse=True)`:
descending by rating; `List.insertionSort` with this relation is the
same stable descending sort (equal keys keep input order). -/
def ratingDesc (a b : Player) : Prop :=
  b.get_overall_rating ≤ a.get_overall_rating

instance : DecidableRel ratingDesc := fun a b => by
  unfold ratingDesc; infer_instance

/-- Python's lexicographic order on the heap tuples `(diff, i, j)`:
`heapq` with all pushes before all pops yields exactly the ascending
enumeration in this order. -/
def heapLe (a b : ℚ × ℕ × ℕ) : Prop :=
  a.1 < b.1 ∨ (a.1 = b.1 ∧ (a.2.1 < b.2.1 ∨
    (a.2.1 = b.2.1 ∧ a.2.2 ≤ b.2.2)))

instance : DecidableRel heapLe := fun a b => by
  unfold heapLe; infer_instance

instance : IsTotal (ℚ × ℕ × ℕ) heapLe := ⟨by
  intro a b
  unfold heapLe
  rcases lt_trichotomy a.1 b.1 with h | h | h
  · exact Or.inl (Or.inl h)
  · rcases lt_trichotomy a.2.1 b.2.1 with h2 | h2 | h2
    · exact Or.inl (Or.inr ⟨h, Or.inl h2⟩)
    · rcases le_total a.2.2 b.2.2 with h3 | h3
      · exact Or.inl (Or.inr ⟨h, Or.inr ⟨h2, h3⟩⟩)
      · exact Or.inr (Or.inr ⟨h.symm, Or.inr ⟨h2.symm, h3⟩⟩)
    · exact Or.inr (Or.inr ⟨h.symm, Or.inl h2⟩)
  · exact Or.inr (Or.inl h)⟩

instance : IsTrans (ℚ × ℕ × ℕ) heapLe := ⟨by
  intro a b c hab hbc
  unfold heapLe at *
  rcases hab with h1 | ⟨e1, h1⟩ <;> rcases hbc with h2 | ⟨e2, h2⟩
  · exact Or.inl (lt_trans h1 h2)
  · exact Or.inl (by rw [← e2]; exact h1)
  · exact Or.inl (by rw [e1]; exact h2)
  · refine Or.inr ⟨e1.trans e2, ?_⟩
    rcases h1 with h1 | ⟨h1a, h1b⟩ <;> rcases h2 with h2 | ⟨h2a, h2b⟩ <;> omega⟩

/-- The loop body of `TeamCreator._distribute_players`: walk the sorted
players, assigning to team 1 when it is not full and (the position is
even or team 2 is already full). -/
def distributeAux (team_1_size team_2_size : ℕ) :
    List Player → ℕ → List Player → List Player → List Player × List Player
  | [], _, t1, t2 => (t1, t2)
  | p :: rest, i, t1, t2 =>
    if t1.length < team_1_size ∧ (i % 2 = 0 ∨ t2.length ≥ team_2_size) then
      distributeAux team_1_size team_2_size rest (i + 1) (t1 ++ [p]) t2
    else
      distributeAux team_1_size team_2_size rest (i + 1) t1 (t2 ++ [p])

/-- `TeamCreator._distribute_players`: zigzag split of the players
sorted by rating descending. -/
def distribute_players (players : List Player) (team_1_size team_2_size : ℕ) :
    List Player × List Player :=
  distributeAux team_1_size team_2_size (players.insertionSort ratingDesc) 0 [] []

/-- `TeamCreator._apply_team_bonus`: the bonus goes to the *larger* team
when sizes are uneven (both teams start at bonus 1.0). -/
def apply_team_bonus (len1 len2 : ℕ) : ℚ × ℚ :=
  if len1 > len2 then (LARGE_TEAM_BOOST, 1)
  else if len2 > len1 then (1, LARGE_TEAM_BOOST)
  else (1, 1)

/-- `TeamCreator._precompute_valid_swaps`: the row-major list of
`(|rating i − rating j|, i, j)` over cross pairs. -/
def crossPairs (t1 t2 : List Player) : List (ℚ × ℕ × ℕ) :=
  (List.range t1.length).flatMap fun i =>
    (List.range t2.length).map fun j =>
      (|(t1.getD i default).get_overall_rating -
        (t2.getD j default).get_overall_rating|, i, j)

/-- The mutable state of a `TeamCreator`: the two teams and the swap
heap, which (all pushes preceding all pops) behaves as the list of
tuples in ascending lexicographic order. -/
structure TeamCreator where
  team_1 : Team
  team_2 : Team
  swap_heap : List (ℚ × ℕ × ℕ)
deriving DecidableEq

instance : Inhabited TeamCreator := ⟨⟨default, default, []⟩⟩

/-- `InvalidTeamSizeError` (teams.py): reports the two requested sizes
and the actual player count. -/
structure InvalidTeamSizeError where
  team_1_size : ℕ
  team_2_size : ℕ
  num_players : ℕ
deriving DecidableEq

/-- `TeamCreator.__init__`: reject mismatched sizes, then distribute,
apply the size bonus and precompute the swap heap. -/
def TeamCreator.init (players : List Player) (team_1_size team_2_size : ℕ) :
    Except InvalidTeamSizeError TeamCreator :=
  if players.length ≠ team_1_size + team_2_size then
    .error ⟨team_1_size, team_2_size, players.length⟩
  else
    let tp := distribute_players players team_1_size team_2_size
    let b := apply_team_bonus tp.1.length tp.2.length
    .ok { team_1 := ⟨tp.1, b.1⟩
          team_2 := ⟨tp.2, b.2⟩
          swap_heap := (crossPairs tp.1 tp.2).insertionSort heapLe }

/-- `TeamCreator._team_rating_diff`. -/
def TeamCreator.team_rating_diff (s : TeamCreator) : ℚ :=
  |s.team_1.get_overall_rating - s.team_2.get_overall_rating|

/-- `TeamCreator._can_improve_balance`: peek the heap top; invalid
indices stop the search; otherwise simulate the swap (note: the deltas
are *not* rescaled by the team bonuses) and compare to the current
diff. -/
def TeamCreator.can_improve_balance (s : TeamCreator) : Bool :=
  match s.swap_heap with
  | [] => false
  | (_, idx1, idx2) :: _ =>
    if idx1 ≥ s.team_1.players.length ∨ idx2 ≥ s.team_2.players.length then
      false
    else
      let player1 := s.team_1.players.getD idx1 default
      let player2 := s.team_2.players.getD idx2 default
      let old_diff := s.team_rating_diff
      let new_team1_rating := s.team_1.get_overall_rating -
        player1.get_overall_rating + player2.get_overall_rating
      let new_team2_rating := s.team_2.get_overall_rating -
        player2.get_overall_rating + player1.get_overall_rating
      decide (|new_team1_rating - new_team2_rating| < old_diff)

/-- `TeamCreator._find_best_swap`: pop heap entries until one has
in-range indices; return it (and the heap that remains). -/
def find_best_swap_aux (len1 len2 : ℕ) :
    List (ℚ × ℕ × ℕ) → Option (ℕ × ℕ) × List (ℚ × ℕ × ℕ)
  | [] => (none, [])
  | (_, idx1, idx2) :: rest =>
    if idx1 < len1 ∧ idx2 < len2 then (some (idx1, idx2), rest)
    else find_best_swap_aux len1 len2 rest

/-- `TeamCreator._find_best_swap` on the creator state. -/
def TeamCreator.find_best_swap (s : TeamCreator) :
    Option (ℕ × ℕ) × List (ℚ × ℕ × ℕ) :=
  find_best_swap_aux s.team_1.players.length s.team_2.players.length s.swap_heap

/-- `TeamCreator._swap_players`: `remove`/`append` in source order —
remove `p1` from team 1, append it to team 2, remove `p2` from that
list, append it to team 1 (`remove` deletes the first equal element). -/
def swap_players (t1 t2 : List Player) (p1 p2 : Player) :
    List Player × List Player :=
  (t1.erase p1 ++ [p2], (t2 ++ [p1]).erase p2)

/-- One iteration of the `while` loop of
`TeamCreator._adjust_teams_for_fairness`: `.inl` is a final state (the
loop exits), `.inr` a state the loop continues from. -/
def adjust_iteration (s : TeamCreator) : TeamCreator ⊕ TeamCreator :=
  match s.can_improve_balance, s.find_best_swap with
  | false, _ => .inl s
  | true, (none, rest) => .inl { s with swap_heap := rest }
  | true, (some (idx1, idx2), rest) =>
    let player1 := s.team_1.players.getD idx1 default
    let player2 := s.team_2.players.getD idx2 default
    let old_diff := s.team_rating_diff
    let t := swap_players s.team_1.players s.team_2.players player1 player2
    let s' : TeamCreator :=
      { team_1 := { s.team_1 with players := t.1 }
        team_2 := { s.team_2 with players := t.2 }
        swap_heap := rest }
    if old_diff ≤ s'.team_rating_diff then
      let tr := swap_players t.1 t.2 player2 player1
      .inl { s' with team_1 := { s'.team_1 with players := tr.1 }
                     team_2 := { s'.team_2 with players := tr.2 } }
    else .inr s'

/-- `TeamCreator._adjust_teams_for_fairness`, fueled: each continued
iteration consumes at least one heap entry, so `swap_heap.length` fuel
reproduces the unbounded `while` loop (proved below). -/
def adjust_teams_for_fairness : ℕ → TeamCreator → TeamCreator
  | 0, s => s
  | fuel + 1, s =>
    match adjust_iteration s with
    | .inl t => t
    | .inr s' => adjust_teams_for_fairness fuel s'

/-- `TeamCreator.create_balanced_teams`. -/
def TeamCreator.create_balanced_teams (s : TeamCreator) : Team × Team :=
  let s' := adjust_teams_for_fairness s.swap_heap.length s
  (s'.team_1, s'.team_2)

/-! ## db.py -/

/-- One row of the `players` table: the six attribute columns and
`form` (the `name` column is the association key; `id` plays no role in
the claims). -/
structure PlayerRecord where
  shooting : ℚ
  dribbling : ℚ
  passing : ℚ
  tackling : ℚ
  fitness : ℚ
  goalkeeping : ℚ
  form : ℤ
deriving DecidableEq

/-- Modelled from the spec: the constants `teams.TEAM1` / `teams.TEAM2`
are referenced throughout `db.py` and `cli.py` but are not defined in
`src/teams.py`; per spec §6 the winner label is `team1 | team2`, the
labels the tests pass and the `last_teams` CHECK constraint embeds. -/
def TEAM1 : String := "team1"

/-- Modelled from the spec: see `TEAM1`. -/
def TEAM2 : String := "team2"

/-- The database state: the `players` table (name-keyed rows, the name
column is UNIQUE), the `matches` table and the `last_teams` snapshot
rows `(player_name, team, bonus)`. -/
structure DBState where
  players : List (String × PlayerRecord)
  matches_table : List (ℤ × ℤ × ℕ)
  last_teams : List (String × String × ℚ)
deriving DecidableEq

/-- Fetch the first row with the given name from a `players` table. -/
def findRec (ps : List (String × PlayerRecord)) (name : String) :
    Option PlayerRecord :=
  (ps.find? fun r => r.1 = name).map Prod.snd

/-- The `SELECT ... FROM players WHERE name = ?` row fetch. -/
def lookupRecord (db : DBState) (name : String) : Option PlayerRecord :=
  findRec db.players name

/-- `DB.get_player_by_name`: fetch the row and rebuild a `Player` via
`Attributes.from_values` (all six keys supplied) and the `Player`
constructor, which clamps the stored form. -/
def DB.get_player_by_name (db : DBState) (name : String) : Option Player :=
  (lookupRecord db name).map fun r =>
    mkPlayer name ⟨r.shooting, r.dribbling, r.passing, r.tackling,
      r.fitness, r.goalkeeping⟩ r.form

/-- `DB.add_player`: `_validate_player_exists_by_name` raises before any
INSERT when the name is taken, leaving the state untouched; otherwise
the row is inserted and committed.  The returned state is the database
after the call (unchanged on error). -/
def DB.add_player (db : DBState) (player : Player) :
    DBState × Except String Unit :=
  if (DB.get_player_by_name db player.name).isSome then
    (db, .error ("Player '" ++ player.name ++ "' already exists."))
  else
    ({ db with players := db.players ++
        [(player.name, ⟨player.attributes.shooting, player.attributes.dribbling,
          player.attributes.passing, player.attributes.tackling,
          player.attributes.fitness, player.attributes.goalkeeping,
          player.form⟩)] }, .ok ())

/-- The snapshot rows labelled `team1`. -/
def team1Rows (db : DBState) : List (String × String × ℚ) :=
  db.last_teams.filter fun r => r.2.1 = TEAM1

/-- The snapshot rows not labelled `team1` (the loop's `else` branch). -/
def team2Rows (db : DBState) : List (String × String × ℚ) :=
  db.last_teams.filter fun r => ¬ r.2.1 = TEAM1

/-- The player names of the `team1` snapshot rows. -/
def team1Names (db : DBState) : List String :=
  (team1Rows db).map fun r => r.1

/-- The player names of the remaining snapshot rows. -/
def team2Names (db : DBState) : List String :=
  (team2Rows db).map fun r => r.1

/-- `DB.get_last_teams`: one pass over the snapshot rows; `team1` rows
collect into the first team, all other rows into the second, each
row overwriting that team's bonus (0.0 when a team has no rows), and
names that no longer resolve to a player are dropped. -/
def DB.get_last_teams (db : DBState) : Team × Team :=
  (⟨((team1Rows db).map fun r => DB.get_player_by_name db r.1).reduceOption,
    ((team1Rows db).map fun r => r.2.2).getLastD 0⟩,
   ⟨((team2Rows db).map fun r => DB.get_player_by_name db r.1).reduceOption,
    ((team2Rows db).map fun r => r.2.2).getLastD 0⟩)

/-- `UPDATE players SET form = ? WHERE name = ?` (updates every row
whose name matches; the name column is UNIQUE so at most one does). -/
def setForm : List (String × PlayerRecord) → String → ℤ →
    List (String × PlayerRecord)
  | [], _, _ => []
  | r :: ps, name, f =>
    (if r.1 = name then (r.1, { r.2 with form := f }) else r) ::
      setForm ps name f

/-- `DB.record_match_result`: validate the label, load the snapshot,
reject when either side is empty; update every participant's form,
persist the forms, insert the match row and clear the snapshot.  The
returned state is the database after the call (unchanged on error). -/
def DB.record_match_result (db : DBState) (winning_team : String) :
    DBState × Except String Unit :=
  if winning_team ≠ TEAM1 ∧ winning_team ≠ TEAM2 then
    (db, .error ("Invalid winning team: '" ++ winning_team ++ "'."))
  else
    let lt := DB.get_last_teams db
    if lt.1.players = [] ∨ lt.2.players = [] then
      (db, .error "No last teams found in the database.")
    else
      let team1_won : Bool := winning_team = TEAM1
      let upd1 := lt.1.players.map fun p => p.update_form team1_won
      let upd2 := lt.2.players.map fun p => p.update_form (! team1_won)
      let players' := (upd1 ++ upd2).foldl
        (fun ps p => setForm ps p.name p.form) db.players
      let winner : ℕ := if team1_won then 1 else 2
      ({ players := players'
         matches_table := db.matches_table ++ [(0, 0, winner)]
         last_teams := [] }, .ok ())

/-! ## Definitions following the spec's words (for refutation /
comparison with the code) -/

/-- The spec's size-bonus rule (§4.4): the team with *fewer* players
receives the boost, the other keeps 1.0; equal sizes leave both at
1.0. -/
def specSizeBonus (t1 t2 : Team) : Prop :=
  (t1.players.length < t2.players.length →
    t1.bonus = LARGE_TEAM_BOOST ∧ t2.bonus = 1) ∧
  (t2.players.length < t1.players.length →
    t2.bonus = LARGE_TEAM_BOOST ∧ t1.bonus = 1) ∧
  (t1.players.length = t2.players.length → t1.bonus = 1 ∧ t2.bonus = 1)

/-- The spec's neutral form value (§4.1/§9: neutral form 5). -/
def specNeutralForm : ℤ := 5

/-- The spec's form-monotonicity property (§8): holding attributes
fixed, increasing form strictly increases the overall rating above the
neutral form and strictly *decreases* it below the neutral form. -/
def specFormMonotone : Prop :=
  ∀ (a : Attributes) (f g : ℤ), 0 ≤ f → f < g → g ≤ 10 →
    (specNeutralForm < f →
      (mkPlayer "p" a f).get_overall_rating <
        (mkPlayer "p" a g).get_overall_rating) ∧
    (g < specNeutralForm →
      (mkPlayer "p" a g).get_overall_rating <
        (mkPlayer "p" a f).get_overall_rating)

/-- The spec's swap objective (§4.5 step 2): the imbalance that would
result from swapping members `i ∈ team 1` and `j ∈ team 2`, with both
teams' rating sums recomputed with the swap applied. -/
def specSwapImbalance (s : TeamCreator) (i j : ℕ) : ℚ :=
  let p1 := s.team_1.players.getD i default
  let p2 := s.team_2.players.getD j default
  let sum1 := (s.team_1.players.map Player.get_overall_rating).sum -
    p1.get_overall_rating + p2.get_overall_rating
  let sum2 := (s.team_2.players.map Player.get_overall_rating).sum -
    p2.get_overall_rating + p1.get_overall_rating
  |s.team_1.bonus * sum1 - s.team_2.bonus * sum2|

/-! ## Concrete example data (used to instantiate the theorems) -/

/-- An attribute set with all six scores equal to `v` (base rating `v`). -/
def flat (v : ℚ) : Attributes := ⟨v, v, v, v, v, v⟩

/-- Three players with distinct ratings 9, 6, 3 (form 0 makes the
rating equal the base rating). -/
def c1players : List Player :=
  [mkPlayer "a" (flat 9) 0, mkPlayer "b" (flat 6) 0, mkPlayer "c" (flat 3) 0]

/-- The creator state for `c1players` split 2 v 1. -/
def c1state : TeamCreator :=
  match TeamCreator.init c1players 2 1 with
  | .ok s => s
  | .error _ => default

/-- Six players with ratings 20, 19, 13, 8, 7, 3: the zigzag split is
`[20, 13, 7]` v `[19, 8, 3]` (diff 10); the heap top pairs 20 with 19
(pair diff 1, resulting imbalance 8) while swapping 13 with 8 (pair
diff 5) would give imbalance 0. -/
def c2players : List Player :=
  [mkPlayer "a" (flat 20) 0, mkPlayer "b" (flat 19) 0,
   mkPlayer "c" (flat 13) 0, mkPlayer "d" (flat 8) 0,
   mkPlayer "e" (flat 7) 0, mkPlayer "f" (flat 3) 0]

/-- The creator state for `c2players` split 3 v 3. -/
def c2state : TeamCreator :=
  match TeamCreator.init c2players 3 3 with
  | .ok s => s
  | .error _ => default

/-- The tail of `c2state`'s swap heap below its top entry `(1, 0, 0)`. -/
def c2rest : List (ℚ × ℕ × ℕ) :=
  [(1, 2, 1), (4, 2, 2), (5, 1, 1), (6, 1, 0), (10, 1, 2), (12, 0, 1),
   (12, 2, 0), (17, 0, 2)]

/-- A stored player row with all attributes 7 and form 5. -/
def rec0 : PlayerRecord := ⟨7, 7, 7, 7, 7, 7, 5⟩

/-- A stored player row with all attributes 4 and form 5. -/
def rec1 : PlayerRecord := ⟨4, 4, 4, 4, 4, 4, 5⟩

/-- A database holding one player named `alice`. -/
def db9 : DBState := ⟨[("alice", rec0)], [], []⟩

/-- A database holding `alice` and `bob` with a last-teams snapshot
placing `alice` on team 1 and `bob` on team 2. -/
def db8 : DBState :=
  ⟨[("alice", rec0), ("bob", rec1)], [],
   [("alice", TEAM1, 1), ("bob", TEAM2, 1)]⟩

/-! ## Helper lemmas -/

lemma distributeAux_lengths (s1 s2 : ℕ) :
    ∀ (rest : List Player) (i : ℕ) (t1 t2 : List Player),
      t1.length ≤ s1 → t2.length ≤ s2 →
      t1.length + t2.length + rest.length = s1 + s2 →
      (distributeAux s1 s2 rest i t1 t2).1.length = s1 ∧
      (distributeAux s1 s2 rest i t1 t2).2.length = s2 := by
  intro rest
  induction rest with
  | nil =>
    intro i t1 t2 h1 h2 hsum
    simp only [distributeAux]
    simp only [List.length_nil] at hsum
    omega
  | cons p rest ih =>
    intro i t1 t2 h1 h2 hsum
    simp only [List.length_cons] at hsum
    simp only [distributeAux]
    split
    · rename_i hc
      refine ih (i + 1) (t1 ++ [p]) t2 ?_ h2 ?_ <;>
        simp only [List.length_append, List.length_singleton] <;> omega
    · rename_i hc
      have ht2 : t2.length < s2 := by
        rcases Nat.lt_or_ge t2.length s2 with h | h
        · exact h
        · exfalso
          rcases Nat.lt_or_ge t1.length s1 with h' | h'
          · exact hc ⟨h', Or.inr h⟩
          · omega
      refine ih (i + 1) t1 (t2 ++ [p]) h1 ?_ ?_ <;>
        simp only [List.length_append, List.length_singleton] <;> omega

lemma distributeAux_perm (s1 s2 : ℕ) :
    ∀ (rest : List Player) (i : ℕ) (t1 t2 : List Player),
      ((distributeAux s1 s2 rest i t1 t2).1 ++
        (distributeAux s1 s2 rest i t1 t2).2).Perm (t1 ++ t2 ++ rest) := by
  intro rest
  induction rest with
  | nil => intro i t1 t2; simp [distributeAux]
  | cons p rest ih =>
    intro i t1 t2
    simp only [distributeAux]
    split
    · refine (ih (i + 1) (t1 ++ [p]) t2).trans ?_
      have : t1 ++ [p] ++ t2 ++ rest = t1 ++ (p :: (t2 ++ rest)) := by
        simp [List.append_assoc]
      rw [this]
      have h2 : t1 ++ t2 ++ (p :: rest) = t1 ++ (t2 ++ (p :: rest)) := by
        simp [List.append_assoc]
      rw [h2]
      exact ((List.perm_middle).symm.append_left t1)
    · refine (ih (i + 1) t1 (t2 ++ [p])).trans ?_
      have : t1 ++ (t2 ++ [p]) ++ rest = t1 ++ t2 ++ (p :: rest) := by
        simp [List.append_assoc]
      rw [this]

lemma find_best_swap_aux_cons_valid (len1 len2 : ℕ) (d : ℚ) (i j : ℕ)
    (rest : List (ℚ × ℕ × ℕ)) (h1 : i < len1) (h2 : j < len2) :
    find_best_swap_aux len1 len2 ((d, i, j) :: rest) = (some (i, j), rest) := by
  simp [find_best_swap_aux, h1, h2]

lemma find_best_swap_aux_some (len1 len2 : ℕ) :
    ∀ (l : List (ℚ × ℕ × ℕ)) (i j : ℕ) (rest : List (ℚ × ℕ × ℕ)),
      find_best_swap_aux len1 len2 l = (some (i, j), rest) →
      i < len1 ∧ j < len2 := by
  intro l
  induction l with
  | nil => intro i j rest h; simp [find_best_swap_aux] at h
  | cons e l ih =>
    intro i j rest h
    obtain ⟨d, i', j'⟩ := e
    simp only [find_best_swap_aux] at h
    split at h
    · rename_i hc
      simp only [Prod.mk.injEq, Option.some.injEq] at h
      obtain ⟨⟨rfl, rfl⟩, rfl⟩ := h
      exact ⟨hc.1, hc.2⟩
    · exact ih i j rest h

lemma find_best_swap_aux_shrinks (len1 len2 : ℕ) :
    ∀ (l : List (ℚ × ℕ × ℕ)), l ≠ [] →
      (find_best_swap_aux len1 len2 l).2.length < l.length := by
  intro l
  induction l with
  | nil => intro h; exact absurd rfl h
  | cons e l ih =>
    intro _
    obtain ⟨d, i', j'⟩ := e
    simp only [find_best_swap_aux]
    split
    · simp
    · rcases List.eq_nil_or_concat l with h | ⟨l', a, rfl⟩
      · subst h; simp [find_best_swap_aux]
      · have := ih (by simp)
        simp only [List.length_cons]
        omega

lemma swap_players_perm (t1 t2 : List Player) (p1 p2 : Player)
    (h1 : p1 ∈ t1) (h2 : p2 ∈ t2) :
    ((swap_players t1 t2 p1 p2).1 ++ (swap_players t1 t2 p1 p2).2).Perm
      (t1 ++ t2) := by
  unfold swap_players
  rw [← Multiset.coe_eq_coe]
  simp only [← Multiset.coe_add, ← Multiset.coe_erase, Multiset.coe_singleton]
  have h1' : p1 ∈ (t1 : Multiset Player) := Multiset.mem_coe.mpr h1
  have h2' : p2 ∈ (t2 : Multiset Player) := Multiset.mem_coe.mpr h2
  rw [Multiset.erase_add_left_pos _ h2']
  conv_rhs => rw [← Multiset.cons_erase h1', ← Multiset.cons_erase h2']
  rw [← Multiset.singleton_add, ← Multiset.singleton_add]
  abel

lemma swap_players_revert_perm (t1 t2 : List Player) (p1 p2 : Player)
    (h1 : p1 ∈ t1) (h2 : p2 ∈ t2) :
    (swap_players (swap_players t1 t2 p1 p2).1 (swap_players t1 t2 p1 p2).2
        p2 p1).1.Perm t1 ∧
    (swap_players (swap_players t1 t2 p1 p2).1 (swap_players t1 t2 p1 p2).2
        p2 p1).2.Perm t2 := by
  unfold swap_players
  constructor
  · rw [← Multiset.coe_eq_coe]
    simp only [← Multiset.coe_add, ← Multiset.coe_erase, Multiset.coe_singleton]
    have h1' : p1 ∈ (t1 : Multiset Player) := Multiset.mem_coe.mpr h1
    rw [Multiset.erase_add_right_pos _ (Multiset.mem_singleton_self p2),
      Multiset.erase_singleton, add_zero, add_comm, Multiset.singleton_add,
      Multiset.cons_erase h1']
  · rw [← Multiset.coe_eq_coe]
    simp only [← Multiset.coe_add, ← Multiset.coe_erase, Multiset.coe_singleton]
    have h2' : p2 ∈ (t2 : Multiset Player) := Multiset.mem_coe.mpr h2
    rw [Multiset.erase_add_left_pos _ h2',
      Multiset.erase_add_left_pos _ (by simp),
      Multiset.erase_add_right_pos _ (Multiset.mem_singleton_self p1),
      Multiset.erase_singleton, add_zero, add_comm, Multiset.singleton_add,
      Multiset.cons_erase h2']

lemma Team.rating_of_perm (t t' : Team) (hp : t.players.Perm t'.players)
    (hb : t.bonus = t'.bonus) :
    t.get_overall_rating = t'.get_overall_rating := by
  unfold Team.get_overall_rating
  rw [(hp.map Player.get_overall_rating).sum_eq, hb]

lemma can_improve_balance_shape (s : TeamCreator)
    (h : s.can_improve_balance = true) :
    ∃ d i j rest, s.swap_heap = (d, i, j) :: rest ∧
      i < s.team_1.players.length ∧ j < s.team_2.players.length := by
  unfold TeamCreator.can_improve_balance at h
  rcases hh : s.swap_heap with _ | ⟨⟨d, i, j⟩, rest⟩
  · rw [hh] at h; simp at h
  · rw [hh] at h
    simp only at h
    split at h
    · simp at h
    · rename_i hc
      push_neg at hc
      exact ⟨d, i, j, rest, rfl, hc.1, hc.2⟩

lemma getD_mem_of_lt {l : List Player} {i : ℕ} (h : i < l.length) :
    l.getD i default ∈ l := by
  rw [List.getD_eq_getElem?_getD, List.getElem?_eq_getElem h]
  exact List.getElem_mem h

/-- Case analysis of one loop iteration: an `.inl` result permutes each
team separately and keeps both bonuses and the rating diff; an `.inr`
result permutes the players across the union, keeps the bonuses,
strictly decreases the rating diff and strictly shrinks the heap. -/
lemma adjust_iteration_spec (s : TeamCreator) :
    (∃ t, adjust_iteration s = .inl t ∧
      t.team_1.bonus = s.team_1.bonus ∧ t.team_2.bonus = s.team_2.bonus ∧
      t.team_1.players.Perm s.team_1.players ∧
      t.team_2.players.Perm s.team_2.players) ∨
    (∃ s', adjust_iteration s = .inr s' ∧
      s'.team_1.bonus = s.team_1.bonus ∧ s'.team_2.bonus = s.team_2.bonus ∧
      (s'.team_1.players ++ s'.team_2.players).Perm
        (s.team_1.players ++ s.team_2.players) ∧
      s'.team_rating_diff < s.team_rating_diff ∧
      s'.swap_heap.length < s.swap_heap.length) := by
  unfold adjust_iteration
  split
  · exact Or.inl ⟨s, rfl, rfl, rfl, .refl _, .refl _⟩
  · exact Or.inl ⟨_, rfl, rfl, rfl, .refl _, .refl _⟩
  · rename_i hci hfbs
    obtain ⟨d, i, j, rest0, hheap, hi, hj⟩ := can_improve_balance_shape s hci
    rename_i idx1 idx2 rest
    have hfbs' : s.find_best_swap = (some (i, j), rest0) := by
      unfold TeamCreator.find_best_swap
      rw [hheap]
      exact find_best_swap_aux_cons_valid _ _ _ _ _ _ hi hj
    rw [hfbs] at hfbs'
    simp only [Prod.mk.injEq, Option.some.injEq] at hfbs'
    obtain ⟨⟨rfl, rfl⟩, rfl⟩ := hfbs'
    have hp1 : s.team_1.players.getD idx1 default ∈ s.team_1.players :=
      getD_mem_of_lt hi
    have hp2 : s.team_2.players.getD idx2 default ∈ s.team_2.players :=
      getD_mem_of_lt hj
    dsimp only
    split
    · rename_i hle
      left
      refine ⟨_, rfl, rfl, rfl, ?_, ?_⟩
      · exact (swap_players_revert_perm _ _ _ _ hp1 hp2).1
      · exact (swap_players_revert_perm _ _ _ _ hp1 hp2).2
    · rename_i hlt
      right
      refine ⟨_, rfl, rfl, rfl, ?_, ?_, ?_⟩
      · exact swap_players_perm _ _ _ _ hp1 hp2
      · exact lt_of_not_ge fun hge => hlt hge
      · rw [hheap]; simp

lemma adjust_loop_diff_le (fuel : ℕ) :
    ∀ s : TeamCreator, (adjust_teams_for_fairness fuel s).team_rating_diff ≤
      s.team_rating_diff := by
  induction fuel with
  | zero => intro s; exact le_refl _
  | succ fuel ih =>
    intro s
    simp only [adjust_teams_for_fairness]
    rcases adjust_iteration_spec s with
      ⟨t, heq, hb1, hb2, hpm1, hpm2⟩ | ⟨s', heq, _, _, _, hlt, _⟩
    · rw [heq]
      have e1 := Team.rating_of_perm t.team_1 s.team_1 hpm1 hb1
      have e2 := Team.rating_of_perm t.team_2 s.team_2 hpm2 hb2
      unfold TeamCreator.team_rating_diff
      rw [e1, e2]
    · rw [heq]
      exact le_of_lt (lt_of_le_of_lt (ih s') hlt)

lemma adjust_loop_perm (fuel : ℕ) :
    ∀ s : TeamCreator,
      ((adjust_teams_for_fairness fuel s).team_1.players ++
        (adjust_teams_for_fairness fuel s).team_2.players).Perm
        (s.team_1.players ++ s.team_2.players) := by
  induction fuel with
  | zero => intro s; exact .refl _
  | succ fuel ih =>
    intro s
    simp only [adjust_teams_for_fairness]
    rcases adjust_iteration_spec s with
      ⟨t, heq, _, _, hpm1, hpm2⟩ | ⟨s', heq, _, _, hperm, _, _⟩
    · rw [heq]
      exact hpm1.append hpm2
    · rw [heq]
      exact (ih s').trans hperm

lemma adjust_loop_succ_stable :
    ∀ (fuel : ℕ) (s : TeamCreator), s.swap_heap.length ≤ fuel →
      adjust_teams_for_fairness (fuel + 1) s =
        adjust_teams_for_fairness fuel s := by
  intro fuel
  induction fuel with
  | zero =>
    intro s h
    have hnil : s.swap_heap = [] :=
      List.length_eq_zero.mp (Nat.le_zero.mp h)
    have hci : s.can_improve_balance = false := by
      unfold TeamCreator.can_improve_balance
      rw [hnil]
    have hit : adjust_iteration s = .inl s := by
      unfold adjust_iteration
      rw [hci]
    simp only [adjust_teams_for_fairness]
    rw [hit]
  | succ fuel ih =>
    intro s h
    simp only [adjust_teams_for_fairness]
    rcases adjust_iteration_spec s with ⟨t, heq, _⟩ | ⟨s', heq, _, _, _, _, hlen⟩
    · rw [heq]
    · rw [heq]
      exact ih s' (by omega)

lemma heapLe_refl (a : ℚ × ℕ × ℕ) : heapLe a a := by
  unfold heapLe
  exact Or.inr ⟨rfl, Or.inr ⟨rfl, le_refl _⟩⟩

lemma crossPairs_mem {t1 t2 : List Player} {d : ℚ} {i j : ℕ}
    (h : (d, i, j) ∈ crossPairs t1 t2) :
    i < t1.length ∧ j < t2.length ∧
      d = |(t1.getD i default).get_overall_rating -
        (t2.getD j default).get_overall_rating| := by
  unfold crossPairs at h
  simp only [List.mem_flatMap, List.mem_map, List.mem_range] at h
  obtain ⟨i', hi', j', hj', heq⟩ := h
  simp only [Prod.mk.injEq] at heq
  obtain ⟨hd, hi, hj⟩ := heq
  subst hi
  subst hj
  exact ⟨hi', hj', hd.symm⟩

lemma init_ok_fields (players : List Player) (s1 s2 : ℕ) (s : TeamCreator)
    (h : TeamCreator.init players s1 s2 = .ok s) :
    players.length = s1 + s2 ∧
    s.team_1.players = (distribute_players players s1 s2).1 ∧
    s.team_2.players = (distribute_players players s1 s2).2 ∧
    s.team_1.bonus = (apply_team_bonus (distribute_players players s1 s2).1.length
      (distribute_players players s1 s2).2.length).1 ∧
    s.team_2.bonus = (apply_team_bonus (distribute_players players s1 s2).1.length
      (distribute_players players s1 s2).2.length).2 ∧
    s.swap_heap = (crossPairs (distribute_players players s1 s2).1
      (distribute_players players s1 s2).2).insertionSort heapLe := by
  unfold TeamCreator.init at h
  split at h
  · exact absurd h (by simp)
  · rename_i hlen
    push_neg at hlen
    simp only [Except.ok.injEq] at h
    subst h
    exact ⟨hlen, rfl, rfl, rfl, rfl, rfl⟩

lemma distribute_players_lengths (players : List Player) (s1 s2 : ℕ)
    (hlen : players.length = s1 + s2) :
    (distribute_players players s1 s2).1.length = s1 ∧
    (distribute_players players s1 s2).2.length = s2 := by
  unfold distribute_players
  exact distributeAux_lengths s1 s2 _ 0 [] [] (by simp) (by simp)
    (by simp [List.length_insertionSort, hlen])

/-! ## Claim theorems -/

/-- C1 (counterexample): the spec's size-bonus rule fails on the code.
For the concrete 3-player list split 2 v 1, `TeamCreator.__init__`
produces a state whose bonuses violate the rule that the *smaller* team
receives the boost while the larger keeps 1.0 (the code boosts the
larger team). -/
theorem bonus_policy_spec_cex :
    TeamCreator.init c1players 2 1 = .ok c1state ∧
    ¬ specSizeBonus c1state.team_1 c1state.team_2 := by
  constructor
  · with_unfolding_all rfl
  · unfold specSizeBonus
    with_unfolding_all decide

/-- C1 (amended): whenever the two created teams have unequal sizes,
exactly the *larger* team receives the fixed bonus multiplier 1.2 while
the smaller team keeps bonus 1.0; when the sizes are equal both bonuses
stay 1.0 — for every player list and pair of sizes accepted by
`TeamCreator.__init__`. -/
theorem bonus_goes_to_larger_team (players : List Player) (s1 s2 : ℕ)
    (s : TeamCreator) (h : TeamCreator.init players s1 s2 = .ok s) :
    (s.team_2.players.length < s.team_1.players.length →
      s.team_1.bonus = LARGE_TEAM_BOOST ∧ s.team_2.bonus = 1) ∧
    (s.team_1.players.length < s.team_2.players.length →
      s.team_2.bonus = LARGE_TEAM_BOOST ∧ s.team_1.bonus = 1) ∧
    (s.team_1.players.length = s.team_2.players.length →
      s.team_1.bonus = 1 ∧ s.team_2.bonus = 1) := by
  obtain ⟨-, hp1, hp2, hb1, hb2, -⟩ := init_ok_fields players s1 s2 s h
  rw [hp1, hp2, hb1, hb2]
  unfold apply_team_bonus
  refine ⟨?_, ?_, ?_⟩ <;> intro hlt <;> split_ifs with h1 h2 <;>
    first
      | exact ⟨rfl, rfl⟩
      | omega

/-- C1 (witness): on the 2 v 1 example the larger team 1 carries the
boost and team 2 keeps bonus 1. -/
theorem bonus_goes_to_larger_team_witness :
    c1state.team_1.bonus = LARGE_TEAM_BOOST ∧ c1state.team_2.bonus = 1 :=
  (bonus_goes_to_larger_team c1players 2 1 c1state
    (by with_unfolding_all rfl)).1 (by with_unfolding_all decide)

/-- C2 (counterexample): the committed swap is not the cross pair
minimizing the resulting imbalance.  On `c2players` (3 v 3) the first
iteration commits pair (0, 0) — the heap minimum by pairwise rating
difference — leaving imbalance 8, although pair (1, 1) would leave
imbalance 0. -/
theorem swap_selection_spec_cex :
    TeamCreator.init c2players 3 3 = .ok c2state ∧
    c2state.can_improve_balance = true ∧
    c2state.find_best_swap.1 = some (0, 0) ∧
    c2state.team_rating_diff = 10 ∧
    (adjust_teams_for_fairness 1 c2state).team_rating_diff = 8 ∧
    specSwapImbalance c2state 0 0 = 8 ∧
    specSwapImbalance c2state 1 1 = 0 := by
  refine ⟨?_, ?_, ?_, ?_, ?_, ?_, ?_⟩
  · with_unfolding_all rfl
  all_goals with_unfolding_all decide

/-- C2 (amended): the swap selected for committing in an iteration is
the heap entry minimal in Python's lexicographic order on
`(|rating i − rating j|, i, j)` — the pairwise rating difference of the
two players as precomputed at construction, not the resulting
imbalance.  Part one: the initial heap is sorted in that order and its
entries carry exactly the pairwise differences of the cross pairs;
part two: whenever `_can_improve_balance` lets the loop proceed, the
pair popped by `_find_best_swap` is the heap head, its indices are in
range and its entry is a lexicographic minimum of the heap. -/
theorem swap_selection_heap_min :
    (∀ (players : List Player) (s1 s2 : ℕ) (s : TeamCreator),
      TeamCreator.init players s1 s2 = .ok s →
      s.swap_heap.Sorted heapLe ∧
      ∀ d i j, (d, i, j) ∈ s.swap_heap →
        i < s.team_1.players.length ∧ j < s.team_2.players.length ∧
        d = |(s.team_1.players.getD i default).get_overall_rating -
          (s.team_2.players.getD j default).get_overall_rating|) ∧
    (∀ (s : TeamCreator) (d : ℚ) (i j : ℕ) (rest : List (ℚ × ℕ × ℕ)),
      s.swap_heap.Sorted heapLe →
      s.can_improve_balance = true →
      s.swap_heap = (d, i, j) :: rest →
      s.find_best_swap = (some (i, j), rest) ∧
      i < s.team_1.players.length ∧ j < s.team_2.players.length ∧
      ∀ e ∈ s.swap_heap, heapLe (d, i, j) e) := by
  constructor
  · intro players s1 s2 s h
    obtain ⟨-, hp1, hp2, -, -, hheap⟩ := init_ok_fields players s1 s2 s h
    constructor
    · rw [hheap]
      exact List.sorted_insertionSort heapLe _
    · intro d i j hmem
      rw [hheap] at hmem
      have hcross := (List.perm_insertionSort heapLe _).subset hmem
      obtain ⟨hi, hj, hd⟩ := crossPairs_mem hcross
      rw [hp1, hp2]
      exact ⟨hi, hj, hd⟩
  · intro s d i j rest hsorted hci hheap
    obtain ⟨d0, i0, j0, rest0, hheap0, hi, hj⟩ := can_improve_balance_shape s hci
    rw [hheap] at hheap0
    simp only [List.cons.injEq, Prod.mk.injEq] at hheap0
    obtain ⟨⟨rfl, rfl, rfl⟩, rfl⟩ := hheap0
    refine ⟨?_, hi, hj, ?_⟩
    · unfold TeamCreator.find_best_swap
      rw [hheap]
      exact find_best_swap_aux_cons_valid _ _ _ _ _ _ hi hj
    · intro e hmem
      rw [hheap] at hmem
      rcases List.mem_cons.mp hmem with rfl | hmem
      · exact heapLe_refl _
      · rw [hheap] at hsorted
        exact (List.pairwise_cons.mp hsorted).1 e hmem

/-- C2 (witness): on the 3 v 3 example the initial heap is sorted with
faithful pairwise differences, and the popped entry `(1, 0, 0)` is its
lexicographic minimum with in-range indices. -/
theorem swap_selection_heap_min_witness :
    (c2state.swap_heap.Sorted heapLe ∧
      ∀ d i j, (d, i, j) ∈ c2state.swap_heap →
        i < c2state.team_1.players.length ∧
        j < c2state.team_2.players.length ∧
        d = |(c2state.team_1.players.getD i default).get_overall_rating -
          (c2state.team_2.players.getD j default).get_overall_rating|) ∧
    (c2state.find_best_swap = (some (0, 0), c2rest) ∧
      0 < c2state.team_1.players.length ∧
      0 < c2state.team_2.players.length ∧
      ∀ e ∈ c2state.swap_heap, heapLe (1, 0, 0) e) :=
  ⟨swap_selection_heap_min.1 c2players 3 3 c2state
      (by with_unfolding_all rfl),
   swap_selection_heap_min.2 c2state 1 0 0 c2rest
      (by with_unfolding_all decide) (by with_unfolding_all decide)
      (by with_unfolding_all decide)⟩

/-- C3: the optimizer never worsens the balance — for every player list
and accepted split sizes, the absolute team-rating difference after
`create_balanced_teams` is at most the difference of the initial greedy
seed split with bonuses applied. -/
theorem optimizer_never_worsens (players : List Player) (s1 s2 : ℕ)
    (s : TeamCreator) (h : TeamCreator.init players s1 s2 = .ok s) :
    |(s.create_balanced_teams).1.get_overall_rating -
      (s.create_balanced_teams).2.get_overall_rating| ≤
      s.team_rating_diff := by
  unfold TeamCreator.create_balanced_teams
  exact adjust_loop_diff_le _ s

/-- C3 (witness): on the 3 v 3 example the final difference is bounded
by the seed difference. -/
theorem optimizer_never_worsens_witness :
    |(c2state.create_balanced_teams).1.get_overall_rating -
      (c2state.create_balanced_teams).2.get_overall_rating| ≤
      c2state.team_rating_diff :=
  optimizer_never_worsens c2players 3 3 c2state (by with_unfolding_all rfl)

/-- C4: the fairness-adjustment loop terminates — running the fueled
loop with any fuel at least `swap_heap.length` produces the same state
as fuel `swap_heap.length` (each continued iteration consumes at least
one heap entry, so the `while` loop stops within that many steps), for
every creator state. -/
theorem optimizer_terminates (s : TeamCreator) (fuel : ℕ)
    (h : s.swap_heap.length ≤ fuel) :
    adjust_teams_for_fairness fuel s =
      adjust_teams_for_fairness s.swap_heap.length s := by
  obtain ⟨k, rfl⟩ : ∃ k, fuel = s.swap_heap.length + k :=
    ⟨fuel - s.swap_heap.length, by omega⟩
  clear h
  induction k with
  | zero => rfl
  | succ k ih =>
    rw [Nat.add_succ]
    rw [adjust_loop_succ_stable (s.swap_heap.length + k) s (by omega)]
    exact ih

/-- C4 (witness): on the 3 v 3 example (heap size 9) fuel 20 gives the
same result as fuel 9. -/
theorem optimizer_terminates_witness :
    adjust_teams_for_fairness 20 c2state =
      adjust_teams_for_fairness c2state.swap_heap.length c2state :=
  optimizer_terminates c2state 20 (by with_unfolding_all decide)

/-- C5 (counterexample): the spec's form-monotonicity property is false
on the code: with all attributes 6, raising the form from 2 to 3 (both
below the neutral form 5) strictly *increases* the overall rating,
contradicting the claimed strict decrease below neutral. -/
theorem form_monotonicity_spec_cex : ¬ specFormMonotone := by
  intro h
  have h2 := (h (flat 6) 2 3 (by decide) (by decide) (by decide)).2 (by decide)
  revert h2
  with_unfolding_all decide

/-- C5 (amended): holding the attributes fixed with a positive base
rating, the overall rating is strictly increasing in the form over the
whole clamped range `[0, 10]` — above and below the neutral form
alike. -/
theorem rating_strictly_increasing_in_form (name : String) (a : Attributes)
    (f g : ℤ) (hbase : 0 < a.base_rating) (hf : 0 ≤ f) (hfg : f < g)
    (hg : g ≤ 10) :
    (mkPlayer name a f).get_overall_rating <
      (mkPlayer name a g).get_overall_rating := by
  unfold mkPlayer Player.get_overall_rating
  dsimp only
  have hf10 : f ≤ 10 := by omega
  have hg0 : 0 ≤ g := by omega
  rw [show max 0 (min f 10) = f by omega, show max 0 (min g 10) = g by omega]
  have hcast : (f : ℚ) < (g : ℚ) := by exact_mod_cast hfg
  apply mul_lt_mul_of_pos_left _ hbase
  linarith

/-- C5 (witness): with all attributes 6, rating at form 2 is below
rating at form 3. -/
theorem rating_strictly_increasing_in_form_witness :
    (mkPlayer "p" (flat 6) 2).get_overall_rating <
      (mkPlayer "p" (flat 6) 3).get_overall_rating :=
  rating_strictly_increasing_in_form "p" (flat 6) 2 3
    (by with_unfolding_all decide) (by decide) (by decide) (by decide)

/-- C6: when the requested sizes sum to the player count the creator
succeeds and the two teams have exactly the requested sizes; otherwise
it fails with an `InvalidTeamSizeError` reporting the requested sizes
and the actual count. -/
theorem team_sizes_and_precondition (players : List Player) (s1 s2 : ℕ) :
    (players.length = s1 + s2 →
      ∃ s, TeamCreator.init players s1 s2 = .ok s ∧
        s.team_1.players.length = s1 ∧ s.team_2.players.length = s2) ∧
    (players.length ≠ s1 + s2 →
      TeamCreator.init players s1 s2 = .error ⟨s1, s2, players.length⟩) := by
  constructor
  · intro hlen
    unfold TeamCreator.init
    rw [if_neg (by omega)]
    exact ⟨_, rfl, (distribute_players_lengths players s1 s2 hlen).1,
      (distribute_players_lengths players s1 s2 hlen).2⟩
  · intro hlen
    unfold TeamCreator.init
    rw [if_pos hlen]

/-- C6 (witness): splitting the 3-player example 2 v 1 succeeds with
sizes (2, 1); requesting 2 v 2 fails with the reported sizes and
count. -/
theorem team_sizes_and_precondition_witness :
    (∃ s, TeamCreator.init c1players 2 1 = .ok s ∧
      s.team_1.players.length = 2 ∧ s.team_2.players.length = 1) ∧
    TeamCreator.init c1players 2 2 = .error ⟨2, 2, 3⟩ :=
  ⟨(team_sizes_and_precondition c1players 2 1).1 (by decide),
   (team_sizes_and_precondition c1players 2 2).2 (by decide)⟩

/-- C7: player conservation — the multiset of players across the two
teams returned by `create_balanced_teams` equals the input multiset,
for every player list and accepted split sizes. -/
theorem players_conserved (players : List Player) (s1 s2 : ℕ)
    (s : TeamCreator) (h : TeamCreator.init players s1 s2 = .ok s) :
    (((s.create_balanced_teams).1.players ++
      (s.create_balanced_teams).2.players : List Player) : Multiset Player) =
      (players : Multiset Player) := by
  rw [Multiset.coe_eq_coe]
  unfold TeamCreator.create_balanced_teams
  refine (adjust_loop_perm _ s).trans ?_
  obtain ⟨-, hp1, hp2, -, -, -⟩ := init_ok_fields players s1 s2 s h
  rw [hp1, hp2]
  unfold distribute_players
  refine (distributeAux_perm s1 s2 _ 0 [] []).trans ?_
  simp only [List.nil_append]
  exact List.perm_insertionSort ratingDesc players

/-- C7 (witness): on the 3 v 3 example the output teams hold exactly
the input players. -/
theorem players_conserved_witness :
    (((c2state.create_balanced_teams).1.players ++
      (c2state.create_balanced_teams).2.players : List Player) :
        Multiset Player) = (c2players : Multiset Player) :=
  players_conserved c2players 3 3 c2state (by with_unfolding_all rfl)

/-! ## DB helper lemmas -/

lemma get_player_by_name_of_lookup {db : DBState} {nm : String}
    {rec : PlayerRecord} (h : lookupRecord db nm = some rec) :
    DB.get_player_by_name db nm = some (mkPlayer nm
      ⟨rec.shooting, rec.dribbling, rec.passing, rec.tackling,
        rec.fitness, rec.goalkeeping⟩ rec.form) := by
  unfold DB.get_player_by_name
  rw [h]
  rfl

lemma get_player_by_name_name {db : DBState} {nm : String} {q : Player}
    (h : DB.get_player_by_name db nm = some q) : q.name = nm := by
  unfold DB.get_player_by_name at h
  rw [Option.map_eq_some'] at h
  obtain ⟨rec, _, hq⟩ := h
  rw [← hq]
  rfl

lemma mem_last_teams_1 {db : DBState} {q : Player}
    (h : q ∈ (DB.get_last_teams db).1.players) :
    q.name ∈ team1Names db ∧ DB.get_player_by_name db q.name = some q := by
  unfold DB.get_last_teams at h
  simp only at h
  rw [List.reduceOption_mem_iff] at h
  rw [List.mem_map] at h
  obtain ⟨r, hr, heq⟩ := h
  have hname := get_player_by_name_name heq
  constructor
  · rw [hname]
    exact List.mem_map.mpr ⟨r, hr, rfl⟩
  · rw [hname]
    exact heq

lemma mem_last_teams_2 {db : DBState} {q : Player}
    (h : q ∈ (DB.get_last_teams db).2.players) :
    q.name ∈ team2Names db ∧ DB.get_player_by_name db q.name = some q := by
  unfold DB.get_last_teams at h
  simp only at h
  rw [List.reduceOption_mem_iff] at h
  rw [List.mem_map] at h
  obtain ⟨r, hr, heq⟩ := h
  have hname := get_player_by_name_name heq
  constructor
  · rw [hname]
    exact List.mem_map.mpr ⟨r, hr, rfl⟩
  · rw [hname]
    exact heq

lemma mem_last_teams_1_of_name {db : DBState} {nm : String} {q : Player}
    (hn : nm ∈ team1Names db) (hq : DB.get_player_by_name db nm = some q) :
    q ∈ (DB.get_last_teams db).1.players := by
  unfold DB.get_last_teams
  simp only
  rw [List.reduceOption_mem_iff]
  obtain ⟨r, hr, hrn⟩ := List.mem_map.mp hn
  refine List.mem_map.mpr ⟨r, hr, ?_⟩
  rw [hrn]
  exact hq

lemma findRec_setForm_self (ps : List (String × PlayerRecord)) (nm : String)
    (f : ℤ) :
    findRec (setForm ps nm f) nm =
      (findRec ps nm).map fun r => { r with form := f } := by
  induction ps with
  | nil => rfl
  | cons e ps ih =>
    obtain ⟨n, r⟩ := e
    by_cases hn : n = nm
    · subst hn
      have e1 : setForm ((n, r) :: ps) n f =
          (n, { r with form := f }) :: setForm ps n f := by
        simp [setForm]
      rw [e1]
      unfold findRec
      rw [List.find?_cons_of_pos _ (by simp), List.find?_cons_of_pos _ (by simp)]
      rfl
    · have e1 : setForm ((n, r) :: ps) nm f = (n, r) :: setForm ps nm f := by
        simp [setForm, hn]
      rw [e1]
      unfold findRec
      rw [List.find?_cons_of_neg _ (by simp [hn]),
        List.find?_cons_of_neg _ (by simp [hn])]
      exact ih

lemma findRec_setForm_other (ps : List (String × PlayerRecord))
    (nm nm' : String) (f : ℤ) (h : nm' ≠ nm) :
    findRec (setForm ps nm f) nm' = findRec ps nm' := by
  induction ps with
  | nil => rfl
  | cons e ps ih =>
    obtain ⟨n, r⟩ := e
    by_cases hn : n = nm
    · subst hn
      have hn' : ¬ n = nm' := fun he => h he.symm
      have e1 : setForm ((n, r) :: ps) n f =
          (n, { r with form := f }) :: setForm ps n f := by
        simp [setForm]
      rw [e1]
      unfold findRec
      rw [List.find?_cons_of_neg _ (by simp [hn']),
        List.find?_cons_of_neg _ (by simp [hn'])]
      exact ih
    · have e1 : setForm ((n, r) :: ps) nm f = (n, r) :: setForm ps nm f := by
        simp [setForm, hn]
      rw [e1]
      unfold findRec
      by_cases hn' : n = nm'
      · rw [List.find?_cons_of_pos _ (by simp [hn']),
          List.find?_cons_of_pos _ (by simp [hn'])]
      · rw [List.find?_cons_of_neg _ (by simp [hn']),
          List.find?_cons_of_neg _ (by simp [hn'])]
        exact ih

lemma findRec_fold_not_mem (L : List Player) :
    ∀ (ps : List (String × PlayerRecord)) (nm : String),
      (∀ p ∈ L, p.name ≠ nm) →
      findRec (L.foldl (fun ps p => setForm ps p.name p.form) ps) nm =
        findRec ps nm := by
  induction L with
  | nil => intro ps nm _; rfl
  | cons q L ih =>
    intro ps nm h
    simp only [List.foldl_cons]
    rw [ih _ nm fun p hp => h p (List.mem_cons_of_mem _ hp)]
    exact findRec_setForm_other _ _ _ _
      fun he => h q (List.mem_cons_self q L) he.symm

lemma findRec_fold_update (L : List Player) :
    ∀ (ps : List (String × PlayerRecord)) (nm : String) (v : ℤ),
      (∀ p ∈ L, p.name = nm → p.form = v) →
      (∃ p ∈ L, p.name = nm) →
      findRec (L.foldl (fun ps p => setForm ps p.name p.form) ps) nm =
        (findRec ps nm).map fun r => { r with form := v } := by
  induction L with
  | nil =>
    rintro ps nm v _ ⟨p, hp, _⟩
    exact absurd hp (List.not_mem_nil p)
  | cons q L ih =>
    intro ps nm v hall hmem
    simp only [List.foldl_cons]
    by_cases hq : q.name = nm
    · have hqv : q.form = v := hall q (List.mem_cons_self q L) hq
      by_cases hLmem : ∃ p ∈ L, p.name = nm
      · rw [ih _ nm v (fun p hp h => hall p (List.mem_cons_of_mem _ hp) h)
          hLmem]
        rw [hq, hqv, findRec_setForm_self, Option.map_map]
        rfl
      · push_neg at hLmem
        rw [findRec_fold_not_mem L _ nm hLmem]
        rw [hq, hqv, findRec_setForm_self]
    · obtain ⟨p, hp, hpn⟩ := hmem
      rcases List.mem_cons.mp hp with rfl | hpL
      · exact absurd hpn hq
      · rw [ih _ nm v (fun p hp h => hall p (List.mem_cons_of_mem _ hp) h)
          ⟨p, hpL, hpn⟩]
        rw [findRec_setForm_other _ _ _ _ fun he => hq he.symm]

lemma mem_last_teams_2_of_name {db : DBState} {nm : String} {q : Player}
    (hn : nm ∈ team2Names db) (hq : DB.get_player_by_name db nm = some q) :
    q ∈ (DB.get_last_teams db).2.players := by
  unfold DB.get_last_teams
  simp only
  rw [List.reduceOption_mem_iff]
  obtain ⟨r, hr, hrn⟩ := List.mem_map.mp hn
  refine List.mem_map.mpr ⟨r, hr, ?_⟩
  rw [hrn]
  exact hq

lemma update_form_name (p : Player) (b : Bool) :
    (p.update_form b).name = p.name := rfl

lemma update_form_form (p : Player) (b : Bool) :
    (p.update_form b).form =
      if b then min (p.form + 1) 10 else max (p.form - 1) 0 := rfl

lemma mkPlayer_form (nm : String) (a : Attributes) (f : ℤ) (h0 : 0 ≤ f)
    (h10 : f ≤ 10) : (mkPlayer nm a f).form = f := by
  unfold mkPlayer
  dsimp only
  omega

/-- C9: adding a player whose name is already stored fails with an
error, and the stored record for that name — all attributes and form —
is unchanged by the failed call (the validation raises before any
INSERT executes). -/
theorem add_player_duplicate_rejected (db : DBState) (p : Player)
    (rec : PlayerRecord) (h : lookupRecord db p.name = some rec) :
    (DB.add_player db p).2 =
      .error ("Player '" ++ p.name ++ "' already exists.") ∧
    (DB.add_player db p).1 = db ∧
    lookupRecord (DB.add_player db p).1 p.name = some rec := by
  have hsome : (DB.get_player_by_name db p.name).isSome = true := by
    rw [get_player_by_name_of_lookup h]
    rfl
  unfold DB.add_player
  rw [if_pos hsome]
  exact ⟨rfl, rfl, h⟩

/-- C9 (witness): adding a second `alice` to the one-player database
errors and leaves the stored record intact. -/
theorem add_player_duplicate_rejected_witness :
    (DB.add_player db9 (mkPlayer "alice" (flat 9) 3)).2 =
      .error ("Player 'alice' already exists.") ∧
    (DB.add_player db9 (mkPlayer "alice" (flat 9) 3)).1 = db9 ∧
    lookupRecord (DB.add_player db9 (mkPlayer "alice" (flat 9) 3)).1
      "alice" = some rec0 :=
  add_player_duplicate_rejected db9 (mkPlayer "alice" (flat 9) 3) rec0
    (by with_unfolding_all decide)

/-- C10: the form-range invariant.  Construction succeeds for every
integer form and silently clamps it into `[0, 10]`, and
`update_trueskill` keeps any in-range form within `[0, 10]`, so every
reachable `Player` has `0 ≤ form ≤ 10`. -/
theorem form_range_invariant :
    (∀ (name : String) (a : Attributes) (f : ℤ),
      0 ≤ (mkPlayer name a f).form ∧ (mkPlayer name a f).form ≤ 10 ∧
      (0 ≤ f → f ≤ 10 → (mkPlayer name a f).form = f)) ∧
    (∀ (p : Player) (won : Bool), 0 ≤ p.form → p.form ≤ 10 →
      0 ≤ (p.update_trueskill won).form ∧
        (p.update_trueskill won).form ≤ 10) := by
  constructor
  · intro name a f
    unfold mkPlayer
    dsimp only
    omega
  · intro p won h0 h10
    unfold Player.update_trueskill
    dsimp only
    cases won <;> simp <;> omega

/-- C10 (witness): an out-of-range form −7 is clamped to the range, an
in-range form is kept, and updating at the top of the range stays in
range. -/
theorem form_range_invariant_witness :
    (0 ≤ (mkPlayer "x" (flat 5) (-7)).form ∧
      (mkPlayer "x" (flat 5) (-7)).form ≤ 10 ∧
      (0 ≤ (-7 : ℤ) → (-7 : ℤ) ≤ 10 → (mkPlayer "x" (flat 5) (-7)).form = -7)) ∧
    (0 ≤ ((mkPlayer "x" (flat 5) 10).update_trueskill true).form ∧
      ((mkPlayer "x" (flat 5) 10).update_trueskill true).form ≤ 10) :=
  ⟨form_range_invariant.1 "x" (flat 5) (-7),
   form_range_invariant.2 (mkPlayer "x" (flat 5) 10) true (by decide)
     (by decide)⟩

/-- C8: recording a match result with a valid winning label, on a
snapshot with both teams non-empty whose two sides share no player
name, persists form +1 (clamped at 10) for every winning-team player
and form −1 (clamped at 0) for every losing-team player with an
in-range stored form, and leaves the last-teams snapshot empty. -/
theorem record_match_result_updates (db : DBState) (winning : String)
    (hw : winning = TEAM1 ∨ winning = TEAM2)
    (h1 : (DB.get_last_teams db).1.players ≠ [])
    (h2 : (DB.get_last_teams db).2.players ≠ [])
    (hdisj : ∀ nm, ¬(nm ∈ team1Names db ∧ nm ∈ team2Names db)) :
    (DB.record_match_result db winning).2 = .ok () ∧
    (DB.record_match_result db winning).1.last_teams = [] ∧
    (∀ nm rec, nm ∈ team1Names db → lookupRecord db nm = some rec →
      0 ≤ rec.form → rec.form ≤ 10 →
      lookupRecord (DB.record_match_result db winning).1 nm =
        some { rec with form := (if winning = TEAM1
          then min (rec.form + 1) 10 else max (rec.form - 1) 0) }) ∧
    (∀ nm rec, nm ∈ team2Names db → lookupRecord db nm = some rec →
      0 ≤ rec.form → rec.form ≤ 10 →
      lookupRecord (DB.record_match_result db winning).1 nm =
        some { rec with form := (if winning = TEAM2
          then min (rec.form + 1) 10 else max (rec.form - 1) 0) }) := by
  have hw' : ¬(winning ≠ TEAM1 ∧ winning ≠ TEAM2) := by
    rcases hw with rfl | rfl
    · exact fun hc => hc.1 rfl
    · exact fun hc => hc.2 rfl
  have hne : ¬((DB.get_last_teams db).1.players = [] ∨
      (DB.get_last_teams db).2.players = []) := by
    rintro (h | h)
    · exact h1 h
    · exact h2 h
  have hres : DB.record_match_result db winning =
      ({ players := (((DB.get_last_teams db).1.players.map fun p =>
            p.update_form (decide (winning = TEAM1))) ++
          ((DB.get_last_teams db).2.players.map fun p =>
            p.update_form (! decide (winning = TEAM1)))).foldl
            (fun ps p => setForm ps p.name p.form) db.players
         matches_table := db.matches_table ++
           [(0, 0, if decide (winning = TEAM1) then 1 else 2)]
         last_teams := [] }, .ok ()) := by
    unfold DB.record_match_result
    rw [if_neg hw']
    dsimp only
    rw [if_neg hne]
  rw [hres]
  refine ⟨rfl, rfl, ?_, ?_⟩
  · intro nm rec hnm hlook hf0 hf10
    have hq : DB.get_player_by_name db nm = some (mkPlayer nm
        ⟨rec.shooting, rec.dribbling, rec.passing, rec.tackling,
          rec.fitness, rec.goalkeeping⟩ rec.form) :=
      get_player_by_name_of_lookup hlook
    have hqform : (mkPlayer nm
        ⟨rec.shooting, rec.dribbling, rec.passing, rec.tackling,
          rec.fitness, rec.goalkeeping⟩ rec.form).form = rec.form :=
      mkPlayer_form _ _ _ hf0 hf10
    have hall : ∀ p ∈ (((DB.get_last_teams db).1.players.map fun p =>
          p.update_form (decide (winning = TEAM1))) ++
        ((DB.get_last_teams db).2.players.map fun p =>
          p.update_form (! decide (winning = TEAM1)))),
        p.name = nm → p.form = (if winning = TEAM1
          then min (rec.form + 1) 10 else max (rec.form - 1) 0) := by
      intro p hp hpname
      rcases List.mem_append.mp hp with hp1 | hp2
      · obtain ⟨q', hq', rfl⟩ := List.mem_map.mp hp1
        rw [update_form_name] at hpname
        obtain ⟨hmem1, hlookq'⟩ := mem_last_teams_1 hq'
        rw [hpname] at hlookq'
        have hqq : q' = mkPlayer nm
            ⟨rec.shooting, rec.dribbling, rec.passing, rec.tackling,
              rec.fitness, rec.goalkeeping⟩ rec.form :=
          Option.some.inj (hlookq'.symm.trans hq)
        rw [update_form_form, hqq, hqform]
        by_cases hwin : winning = TEAM1
        · simp [hwin]
        · simp [hwin]
      · obtain ⟨q', hq', rfl⟩ := List.mem_map.mp hp2
        rw [update_form_name] at hpname
        obtain ⟨hmem2, _⟩ := mem_last_teams_2 hq'
        rw [hpname] at hmem2
        exact absurd ⟨hnm, hmem2⟩ (hdisj nm)
    have hmem : ∃ p ∈ (((DB.get_last_teams db).1.players.map fun p =>
          p.update_form (decide (winning = TEAM1))) ++
        ((DB.get_last_teams db).2.players.map fun p =>
          p.update_form (! decide (winning = TEAM1)))), p.name = nm := by
      refine ⟨(mkPlayer nm ⟨rec.shooting, rec.dribbling, rec.passing,
        rec.tackling, rec.fitness, rec.goalkeeping⟩ rec.form).update_form
          (decide (winning = TEAM1)), ?_, rfl⟩
      exact List.mem_append.mpr (Or.inl (List.mem_map.mpr
        ⟨_, mem_last_teams_1_of_name hnm hq, rfl⟩))
    unfold lookupRecord
    dsimp only
    rw [findRec_fold_update _ _ nm _ hall hmem]
    rw [show findRec db.players nm = some rec from hlook]
    rfl
  · intro nm rec hnm hlook hf0 hf10
    have hq : DB.get_player_by_name db nm = some (mkPlayer nm
        ⟨rec.shooting, rec.dribbling, rec.passing, rec.tackling,
          rec.fitness, rec.goalkeeping⟩ rec.form) :=
      get_player_by_name_of_lookup hlook
    have hqform : (mkPlayer nm
        ⟨rec.shooting, rec.dribbling, rec.passing, rec.tackling,
          rec.fitness, rec.goalkeeping⟩ rec.form).form = rec.form :=
      mkPlayer_form _ _ _ hf0 hf10
    have hall : ∀ p ∈ (((DB.get_last_teams db).1.players.map fun p =>
          p.update_form (decide (winning = TEAM1))) ++
        ((DB.get_last_teams db).2.players.map fun p =>
          p.update_form (! decide (winning = TEAM1)))),
        p.name = nm → p.form = (if winning = TEAM2
          then min (rec.form + 1) 10 else max (rec.form - 1) 0) := by
      intro p hp hpname
      rcases List.mem_append.mp hp with hp1 | hp2
      · obtain ⟨q', hq', rfl⟩ := List.mem_map.mp hp1
        rw [update_form_name] at hpname
        obtain ⟨hmem1, _⟩ := mem_last_teams_1 hq'
        rw [hpname] at hmem1
        exact absurd ⟨hmem1, hnm⟩ (hdisj nm)
      · obtain ⟨q', hq', rfl⟩ := List.mem_map.mp hp2
        rw [update_form_name] at hpname
        obtain ⟨hmem2, hlookq'⟩ := mem_last_teams_2 hq'
        rw [hpname] at hlookq'
        have hqq : q' = mkPlayer nm
            ⟨rec.shooting, rec.dribbling, rec.passing, rec.tackling,
              rec.fitness, rec.goalkeeping⟩ rec.form :=
          Option.some.inj (hlookq'.symm.trans hq)
        rw [update_form_form, hqq, hqform]
        rcases hw with rfl | rfl
        · have hne12 : ¬ (TEAM1 = TEAM2) := by decide
          simp [hne12]
        · have hne21 : ¬ (TEAM2 = TEAM1) := by decide
          simp [hne21]
    have hmem : ∃ p ∈ (((DB.get_last_teams db).1.players.map fun p =>
          p.update_form (decide (winning = TEAM1))) ++
        ((DB.get_last_teams db).2.players.map fun p =>
          p.update_form (! decide (winning = TEAM1)))), p.name = nm := by
      refine ⟨(mkPlayer nm ⟨rec.shooting, rec.dribbling, rec.passing,
        rec.tackling, rec.fitness, rec.goalkeeping⟩ rec.form).update_form
          (! decide (winning = TEAM1)), ?_, rfl⟩
      exact List.mem_append.mpr (Or.inr (List.mem_map.mpr
        ⟨_, mem_last_teams_2_of_name hnm hq, rfl⟩))
    unfold lookupRecord
    dsimp only
    rw [findRec_fold_update _ _ nm _ hall hmem]
    rw [show findRec db.players nm = some rec from hlook]
    rfl

/-- C8 (witness): on the two-player snapshot with `alice` on team 1 and
`bob` on team 2, recording a `team1` win succeeds, empties the
snapshot, bumps alice's form from 5 to 6 and drops bob's from 5 to
4. -/
theorem record_match_result_updates_witness :
    (DB.record_match_result db8 TEAM1).2 = .ok () ∧
    (DB.record_match_result db8 TEAM1).1.last_teams = [] ∧
    lookupRecord (DB.record_match_result db8 TEAM1).1 "alice" =
      some { rec0 with form := (if TEAM1 = TEAM1
        then min (rec0.form + 1) 10 else max (rec0.form - 1) 0) } ∧
    lookupRecord (DB.record_match_result db8 TEAM1).1 "bob" =
      some { rec1 with form := (if TEAM1 = TEAM2
        then min (rec1.form + 1) 10 else max (rec1.form - 1) 0) } := by
  obtain ⟨ha, hb, hc, hd⟩ := record_match_result_updates db8 TEAM1
    (Or.inl rfl) (by with_unfolding_all decide) (by with_unfolding_all decide)
    (by
      intro nm hcontra
      have e1 : team1Names db8 = ["alice"] := by with_unfolding_all rfl
      have e2 : team2Names db8 = ["bob"] := by with_unfolding_all rfl
      rw [e1] at hcontra
      rw [e2] at hcontra
      obtain ⟨hma, hmb⟩ := hcontra
      simp only [List.mem_singleton] at hma hmb
      subst hma
      exact absurd hmb (by decide))
  exact ⟨ha, hb,
    hc "alice" rec0 (by with_unfolding_all decide) (by with_unfolding_all decide)
      (by decide) (by decide),
    hd "bob" rec1 (by with_unfolding_all decide) (by with_unfolding_all decide)
      (by decide) (by decide)⟩

end FiveASide
